import Mathlib

/-!
Verification of the packet-ownership core of an ENet binding.

The development shallowly embeds `src/packet.rs`.  The Rust side
(`PacketMode`, `Packet`) is translated function by function.  The foreign
side (the ENet C library: `enet_packet_create`, `enet_packet_destroy`, the
`ENetPacket` record and the flag constants) is not part of the repository
sources, so it is modelled from the specification, as documented on each
such definition.  Heap allocations are identified by natural-number ids;
an instrumented state records every free, so that exactly-once-release
properties become countable statements.
-/

namespace EnetRs

/-- Modelled from the spec: wire flag RELIABLE, one of four independent bits
of the transport ABI (supplied by the foreign library, not by the sources). -/
def FLAG_RELIABLE : Nat := 1

/-- Modelled from the spec: wire flag UNSEQUENCED, an independent bit. -/
def FLAG_UNSEQUENCED : Nat := 2

/-- Modelled from the spec: wire flag NO_ALLOCATE (caller-supplied storage),
an independent bit. -/
def FLAG_NO_ALLOCATE : Nat := 4

/-- Modelled from the spec: wire flag UNRELIABLE_FRAGMENT, an independent bit. -/
def FLAG_UNRELIABLE_FRAGMENT : Nat := 8

/-- Mode that can be set when transmitting a packet (the `PacketMode` enum of
the source). -/
inductive PacketMode where
  | UnreliableSequenced
  | UnreliableUnsequenced
  | UnreliableUnsequencedUnreliablyFragmented
  | ReliableSequenced
deriving DecidableEq, Fintype

/-- Translation of `PacketMode::is_reliable` from the source. -/
def PacketMode.is_reliable : PacketMode → Bool
  | .UnreliableSequenced => false
  | .UnreliableUnsequenced => false
  | .UnreliableUnsequencedUnreliablyFragmented => false
  | .ReliableSequenced => true

/-- Translation of `PacketMode::is_sequenced` from the source. -/
def PacketMode.is_sequenced : PacketMode → Bool
  | .UnreliableSequenced => true
  | .UnreliableUnsequenced => false
  | .UnreliableUnsequencedUnreliablyFragmented => false
  | .ReliableSequenced => true

/-- Translation of `PacketMode::to_sys_flags` from the source. -/
def PacketMode.to_sys_flags : PacketMode → Nat
  | .UnreliableSequenced => 0
  | .UnreliableUnsequenced => FLAG_UNSEQUENCED
  | .ReliableSequenced => FLAG_RELIABLE
  | .UnreliableUnsequencedUnreliablyFragmented =>
      FLAG_UNSEQUENCED ||| FLAG_UNRELIABLE_FRAGMENT

/-! ## Heap and foreign-record model -/

/-- A caller-side byte buffer: the contents of a `Vec<u8>` together with its
allocated capacity.  Allocations are identified by a natural-number id, the
model analogue of the data pointer. -/
structure Buffer where
  bytes : List Nat
  capacity : Nat
deriving DecidableEq

/-- Modelled from the spec: the foreign packet record, with mutable fields
for the data pointer, `dataLength`, `userData` (repurposed to stash the
original capacity), the installable free callback (modelled as a flag: the
only callback ever installed is `packet_free_callback`) and the wire flags. -/
structure ENetPacket where
  data : Nat
  dataLength : Nat
  userData : Nat
  flags : Nat
  freeCallback : Bool
deriving DecidableEq

/-- Translation of the `Packet` struct from the source: a wrapper around the
raw handle of a foreign packet record (handles are natural-number ids). -/
structure Packet where
  inner : Nat
deriving DecidableEq

/-- The triple captured by `Vec::from_raw_parts` when the free callback
reconstructs the buffer: (data pointer, length, capacity). -/
structure RawVec where
  ptr : Nat
  len : Nat
  cap : Nat
deriving DecidableEq

/-- Translation of the `Error` struct of the crate (a numeric code). -/
structure Error where
  code : Int
deriving DecidableEq

/-- Association-list lookup keyed by natural-number ids. -/
def alookup {α : Type} : List (Nat × α) → Nat → Option α
  | [], _ => none
  | (k, v) :: t, k2 => if k2 = k then some v else alookup t k2

/-- Remove every binding of a key. -/
def aerase {α : Type} : List (Nat × α) → Nat → List (Nat × α)
  | [], _ => []
  | (k, v) :: t, k2 => if k2 = k then aerase t k2 else (k, v) :: aerase t k2

/-- Apply a function to every binding of a key. -/
def aupdate {α : Type} : List (Nat × α) → Nat → (α → α) → List (Nat × α)
  | [], _, _ => []
  | (k, v) :: t, k2, f =>
      if k2 = k then (k, f v) :: aupdate t k2 f else (k, v) :: aupdate t k2 f

/-- Remove every occurrence of an element from a list of ids. -/
def lremove : List Nat → Nat → List Nat
  | [], _ => []
  | x :: t, b => if x = b then lremove t b else x :: lremove t b

/-- The instrumented model state: live heap allocations, the set of buffer
ids still owned by a caller-side `Vec`, the foreign records, the live Rust
`Packet` values (keyed by a value id), the log of freed allocation ids and
the log of every `Vec` reconstructed and dropped. -/
structure MState where
  heap : List (Nat × Buffer)
  callerOwned : List Nat
  records : List (Nat × ENetPacket)
  packets : List (Nat × Packet)
  freeLog : List Nat
  dropLog : List RawVec
  nextH : Nat
  nextP : Nat
deriving DecidableEq

/-- Free the allocation `b`: defined only when `b` is live, so a double free
is unrepresentable in a successful run. -/
def heapFree (s : MState) (b : Nat) : Option MState :=
  if (alookup s.heap b).isSome then
    some { s with heap := aerase s.heap b, freeLog := s.freeLog ++ [b] }
  else none

/-- Dropping a `Vec` described by raw parts: frees its allocation and logs
the dropped triple. -/
def vecDrop (s : MState) (v : RawVec) : Option MState :=
  (heapFree s v.ptr).map fun s2 => { s2 with dropLog := s2.dropLog ++ [v] }

/-- Modelled from the spec: `enet_packet_create` (foreign allocator, not in
the sources).  With the NO_ALLOCATE flag the record reuses the caller
storage, so its data field is the caller pointer; `userData` starts empty
and no callback is installed.  The allocator may fail, which it reports by
a null handle; failure is an environment choice, passed in as `allocOk`. -/
def enet_packet_create (s : MState) (ptr len flags : Nat) (allocOk : Bool) :
    Option (Nat × MState) :=
  if allocOk then
    some (s.nextH,
      { s with
          records := (s.nextH, ⟨ptr, len, 0, flags, false⟩) :: s.records,
          nextH := s.nextH + 1 })
  else none

/-- Translation of `packet_free_callback` from the source: it rebuilds the
`Vec` from the data pointer, the current `dataLength` and the capacity
stashed in `userData`, and drops it. -/
def packet_free_callback (p : ENetPacket) : RawVec :=
  ⟨p.data, p.dataLength, p.userData⟩

/-- Modelled from the spec: `enet_packet_destroy` (foreign, not in the
sources).  Destroys the record; if a free callback is installed it fires
during destruction, dropping the reconstructed caller buffer.  A record
without a callback was engine-allocated and is released internally, which
touches no caller allocation. -/
def enet_packet_destroy (s : MState) (h : Nat) : Option MState :=
  match alookup s.records h with
  | none => none
  | some r =>
      let s2 := { s with records := aerase s.records h }
      if r.freeCallback then vecDrop s2 (packet_free_callback r) else some s2

/-- Translation of `Packet::from_sys_packet` from the source. -/
def Packet.from_sys_packet (h : Nat) : Packet := ⟨h⟩

/-- Translation of `Packet::into_inner` from the source: returns the raw
handle; the `mem::forget(self)` suppressing the destructor is the trace-level
`Op.intoRaw` step, which removes the value without destroying the record. -/
def Packet.into_inner (p : Packet) : Nat := p.inner

/-- Translation of `Packet::data` from the source: a read-only view of
`dataLength` bytes starting at the record data pointer.  Reading past the
allocation would be undefined, hence the length guard. -/
def Packet.data (s : MState) (p : Packet) : Option (List Nat) :=
  match alookup s.records p.inner with
  | none => none
  | some r =>
      match alookup s.heap r.data with
      | none => none
      | some buf =>
          if r.dataLength ≤ buf.bytes.length then
            some (buf.bytes.take r.dataLength)
          else none

/-- Translation of `Packet::new` from the source.  The `Vec` argument is the
pair of its allocation id `b` and contents `buf`.  On success the record is
tagged with the capacity in `userData`, the free callback is installed, and
`std::mem::forget(data)` gives up caller ownership of `b`.  On failure the
error is returned and `data`, still owned by the Rust side, is dropped when
it goes out of scope (handled by the `Op.newPacket` step). -/
def Packet.new (s : MState) (b : Nat) (buf : Buffer) (mode : PacketMode)
    (allocOk : Bool) : Except Error (Packet × MState) :=
  match enet_packet_create s b buf.bytes.length
      (mode.to_sys_flags ||| FLAG_NO_ALLOCATE) allocOk with
  | none => .error ⟨0⟩
  | some (h, s1) =>
      let s2 := { s1 with
        records := aupdate s1.records h fun r =>
          { r with userData := buf.capacity, freeCallback := true } }
      let s3 := { s2 with callerOwned := lremove s2.callerOwned b }
      .ok (Packet.from_sys_packet h, s3)

/-! ## Operational semantics

Each operation is one event a client (or the engine) can perform.  `step`
returns `none` exactly when the event violates a precondition that the Rust
type system or the documented contract rules out (use of a dead value,
double destroy, constructing from a buffer the caller does not own): a
successful `run` is therefore a well-typed trace. -/

inductive Op where
  | newPacket (b : Nat) (mode : PacketMode) (allocOk : Bool)
  | dropPacket (pid : Nat)
  | intoRaw (pid : Nat)
  | destroyRaw (h : Nat)
  | dropVec (b : Nat)
  | setDataLength (h n : Nat)
deriving DecidableEq

/-- One step of the trace semantics. -/
def step (s : MState) : Op → Option MState
  | .newPacket b mode allocOk =>
      match alookup s.heap b with
      | none => none
      | some buf =>
          if b ∈ s.callerOwned then
            match Packet.new s b buf mode allocOk with
            | .error _ =>
                vecDrop { s with callerOwned := lremove s.callerOwned b }
                  ⟨b, buf.bytes.length, buf.capacity⟩
            | .ok (p, s2) =>
                some { s2 with
                  packets := (s2.nextP, p) :: s2.packets,
                  nextP := s2.nextP + 1 }
          else none
  | .dropPacket pid =>
      match alookup s.packets pid with
      | none => none
      | some p =>
          enet_packet_destroy { s with packets := aerase s.packets pid } p.inner
  | .intoRaw pid =>
      match alookup s.packets pid with
      | none => none
      | some _ => some { s with packets := aerase s.packets pid }
  | .destroyRaw h => enet_packet_destroy s h
  | .dropVec b =>
      match alookup s.heap b with
      | none => none
      | some buf =>
          if b ∈ s.callerOwned then
            vecDrop { s with callerOwned := lremove s.callerOwned b }
              ⟨b, buf.bytes.length, buf.capacity⟩
          else none
  | .setDataLength h n =>
      match alookup s.records h with
      | none => none
      | some _ =>
          some { s with
            records := aupdate s.records h fun r => { r with dataLength := n } }

/-- Run a list of operations. -/
def run (s : MState) : List Op → Option MState
  | [] => some s
  | op :: ops =>
      match step s op with
      | none => none
      | some s2 => run s2 ops

/-- How many times one operation releases the packet identified by the Rust
value id `pid` or, once extracted, by the raw handle `h`. -/
def relOp (pid h : Nat) : Op → Nat
  | .dropPacket q => if q = pid then 1 else 0
  | .destroyRaw k => if k = h then 1 else 0
  | _ => 0

/-- Total number of releases of the tracked packet in a trace. -/
def relCount (pid h : Nat) (ops : List Op) : Nat :=
  (ops.map (relOp pid h)).sum

/-- Well-formedness of a model state: freed ids are not live; every record
with an installed callback points at a live allocation that no caller `Vec`
owns, and no two such records share an allocation; caller-owned buffers are
live; no two live `Packet` values wrap the same handle; ids respect the
freshness counters. -/
abbrev WF (s : MState) : Prop :=
  (∀ b ∈ s.freeLog, alookup s.heap b = none) ∧
  (∀ p ∈ s.records, p.2.freeCallback = true →
    (alookup s.heap p.2.data).isSome = true) ∧
  (∀ p ∈ s.records, p.2.freeCallback = true → p.2.data ∉ s.callerOwned) ∧
  (∀ p ∈ s.records, ∀ q ∈ s.records, p.2.freeCallback = true →
    q.2.freeCallback = true → p.2.data = q.2.data → p.1 = q.1) ∧
  (∀ b ∈ s.callerOwned, (alookup s.heap b).isSome = true) ∧
  (∀ p ∈ s.packets, ∀ q ∈ s.packets, p.2.inner = q.2.inner → p.1 = q.1) ∧
  (∀ p ∈ s.records, p.1 < s.nextH) ∧
  (∀ p ∈ s.packets, p.1 < s.nextP) ∧
  (∀ p ∈ s.packets, p.2.inner < s.nextH)

/-- Tracking predicate for one constructed packet through a trace: the
buffer id `b`, the record handle `h`, the Rust value id `pid` and the number
`k` of releases consumed so far.  Phase one: the `Packet` value is live and
wraps `h`, whose record points at `b` with the callback installed, and `b`
has never been freed.  Phase two: the same, except the value was consumed by
`into_inner` and the caller holds the raw handle.  Phase three: the record
was destroyed, the callback fired, and `b` appears in the free log exactly
once. -/
def Status (b h pid k : Nat) (s : MState) : Prop :=
  h < s.nextH ∧ pid < s.nextP ∧
  ((k = 0 ∧ alookup s.packets pid = some ⟨h⟩ ∧
      (∃ r, alookup s.records h = some r ∧ r.data = b ∧
        r.freeCallback = true) ∧
      s.freeLog.count b = 0) ∨
   (k = 0 ∧ alookup s.packets pid = none ∧
      (∀ q ∈ s.packets, q.2.inner ≠ h) ∧
      (∃ r, alookup s.records h = some r ∧ r.data = b ∧
        r.freeCallback = true) ∧
      s.freeLog.count b = 0) ∨
   (k = 1 ∧ alookup s.records h = none ∧
      (alookup s.packets pid = none ∨ alookup s.packets pid = some ⟨h⟩) ∧
      s.freeLog.count b = 1))

/-! ## Concrete states for witnesses -/

/-- A three-byte buffer whose capacity exceeds its length. -/
def bufW : Buffer := ⟨[1, 2, 3], 5⟩

/-- An empty buffer. -/
def bufE : Buffer := ⟨[], 0⟩

/-- A start state: two caller-owned live buffers, nothing else. -/
def stW : MState := ⟨[(0, bufW), (1, bufE)], [0, 1], [], [], [], [], 0, 0⟩

/-- The state of `stW` after a packet was constructed from buffer 0 with
mode ReliableSequenced. -/
def stP : MState :=
  ⟨[(0, bufW), (1, bufE)], [1], [(0, ⟨0, 3, 5, 5, true⟩)], [(0, ⟨0⟩)],
    [], [], 1, 1⟩

/-! ## Association-list lemmas -/

theorem alookup_aerase_self {α : Type} (l : List (Nat × α)) (k : Nat) :
    alookup (aerase l k) k = none := by
  induction l with
  | nil => rfl
  | cons p t ih =>
      obtain ⟨a, v⟩ := p
      by_cases h : k = a
      · subst h
        simp [aerase, ih]
      · simp [aerase, alookup, h, ih]

theorem alookup_aerase_ne {α : Type} (l : List (Nat × α)) (k k2 : Nat)
    (h : k2 ≠ k) : alookup (aerase l k) k2 = alookup l k2 := by
  induction l with
  | nil => rfl
  | cons p t ih =>
      obtain ⟨a, v⟩ := p
      by_cases ha : k = a
      · subst ha
        simp [aerase, alookup, h, ih]
      · by_cases hb : k2 = a <;> simp [aerase, alookup, ha, hb, ih]

theorem alookup_aupdate_self {α : Type} (l : List (Nat × α)) (k : Nat)
    (f : α → α) : alookup (aupdate l k f) k = (alookup l k).map f := by
  induction l with
  | nil => rfl
  | cons p t ih =>
      obtain ⟨a, v⟩ := p
      by_cases h : k = a <;> simp [aupdate, alookup, h, ih]

theorem alookup_aupdate_ne {α : Type} (l : List (Nat × α)) (k k2 : Nat)
    (f : α → α) (h : k2 ≠ k) : alookup (aupdate l k f) k2 = alookup l k2 := by
  induction l with
  | nil => rfl
  | cons p t ih =>
      obtain ⟨a, v⟩ := p
      by_cases ha : k = a
      · subst ha
        simp [aupdate, alookup, h, ih]
      · by_cases hb : k2 = a <;> simp [aupdate, alookup, ha, hb, ih]

theorem alookup_mem {α : Type} {l : List (Nat × α)} {k : Nat} {v : α}
    (h : alookup l k = some v) : (k, v) ∈ l := by
  induction l with
  | nil => simp [alookup] at h
  | cons p t ih =>
      obtain ⟨a, w⟩ := p
      by_cases ha : k = a
      · subst ha
        simp [alookup] at h
        simp [h]
      · simp [alookup, ha] at h
        simp [ih h]

theorem mem_aerase {α : Type} {l : List (Nat × α)} {k : Nat} {p : Nat × α} :
    p ∈ aerase l k ↔ p ∈ l ∧ p.1 ≠ k := by
  induction l with
  | nil => simp [aerase]
  | cons q t ih =>
      obtain ⟨a, v⟩ := q
      by_cases ha : k = a
      · subst ha
        rw [show aerase ((k, v) :: t) k = aerase t k from if_pos rfl, ih,
          List.mem_cons]
        constructor
        · rintro ⟨hm, hne⟩
          exact ⟨Or.inr hm, hne⟩
        · rintro ⟨hm | hm, hne⟩
          · cases hm
            simp at hne
          · exact ⟨hm, hne⟩
      · rw [show aerase ((a, v) :: t) k = (a, v) :: aerase t k from if_neg ha,
          List.mem_cons, List.mem_cons, ih]
        constructor
        · rintro (rfl | ⟨hm, hne⟩)
          · exact ⟨Or.inl rfl, fun hk => ha hk.symm⟩
          · exact ⟨Or.inr hm, hne⟩
        · rintro ⟨rfl | hm, hne⟩
          · exact Or.inl rfl
          · exact Or.inr ⟨hm, hne⟩

theorem mem_aupdate {α : Type} {l : List (Nat × α)} {k : Nat} {f : α → α}
    {p : Nat × α} (h : p ∈ aupdate l k f) :
    ∃ v, (p.1, v) ∈ l ∧ (p.2 = v ∨ p.2 = f v) := by
  induction l with
  | nil => simp [aupdate] at h
  | cons q t ih =>
      obtain ⟨a, v⟩ := q
      by_cases ha : k = a
      · subst ha
        rw [show aupdate ((k, v) :: t) k f = (k, f v) :: aupdate t k f from
          if_pos rfl, List.mem_cons] at h
        rcases h with rfl | h
        · exact ⟨v, by simp, Or.inr rfl⟩
        · obtain ⟨w, hw, hor⟩ := ih h
          exact ⟨w, List.mem_cons_of_mem _ hw, hor⟩
      · rw [show aupdate ((a, v) :: t) k f = (a, v) :: aupdate t k f from
          if_neg ha, List.mem_cons] at h
        rcases h with rfl | h
        · exact ⟨v, by simp, Or.inl rfl⟩
        · obtain ⟨w, hw, hor⟩ := ih h
          exact ⟨w, List.mem_cons_of_mem _ hw, hor⟩

theorem mem_lremove {l : List Nat} {b x : Nat} :
    x ∈ lremove l b ↔ x ∈ l ∧ x ≠ b := by
  induction l with
  | nil => simp [lremove]
  | cons a t ih =>
      by_cases ha : a = b
      · subst ha
        rw [show lremove (a :: t) a = lremove t a from if_pos rfl, ih,
          List.mem_cons]
        constructor
        · rintro ⟨hm, hne⟩
          exact ⟨Or.inr hm, hne⟩
        · rintro ⟨rfl | hm, hne⟩
          · exact absurd rfl hne
          · exact ⟨hm, hne⟩
      · rw [show lremove (a :: t) b = a :: lremove t b from if_neg ha,
          List.mem_cons, List.mem_cons, ih]
        constructor
        · rintro (rfl | ⟨hm, hne⟩)
          · exact ⟨Or.inl rfl, ha⟩
          · exact ⟨Or.inr hm, hne⟩
        · rintro ⟨rfl | hm, hne⟩
          · exact Or.inl rfl
          · exact Or.inr ⟨hm, hne⟩

theorem count_append_one (l : List Nat) (x b : Nat) :
    (l ++ [x]).count b = l.count b + (if b = x then 1 else 0) := by
  by_cases h : b = x <;>
    simp [List.count_append, List.count_singleton, h, beq_iff_eq]

/-! ## State-shape helpers -/

theorem alookup_cons_self {α : Type} (t : List (Nat × α)) (k : Nat) (v : α) :
    alookup ((k, v) :: t) k = some v := if_pos rfl

theorem aerase_cons_self {α : Type} (t : List (Nat × α)) (k : Nat) (v : α) :
    aerase ((k, v) :: t) k = aerase t k := if_pos rfl

theorem aupdate_cons_self {α : Type} (t : List (Nat × α)) (k : Nat) (v : α)
    (f : α → α) : aupdate ((k, v) :: t) k f = (k, f v) :: aupdate t k f :=
  if_pos rfl

theorem aerase_eq_of_forall_ne {α : Type} {l : List (Nat × α)} {k : Nat}
    (h : ∀ p ∈ l, p.1 ≠ k) : aerase l k = l := by
  induction l with
  | nil => rfl
  | cons q t ih =>
      obtain ⟨a, v⟩ := q
      have ha : k ≠ a := fun hk => h (a, v) (by simp) hk.symm
      rw [show aerase ((a, v) :: t) k = (a, v) :: aerase t k from if_neg ha,
        ih fun p hp => h p (List.mem_cons_of_mem _ hp)]

theorem aupdate_eq_of_forall_ne {α : Type} {l : List (Nat × α)} {k : Nat}
    {f : α → α} (h : ∀ p ∈ l, p.1 ≠ k) : aupdate l k f = l := by
  induction l with
  | nil => rfl
  | cons q t ih =>
      obtain ⟨a, v⟩ := q
      have ha : k ≠ a := fun hk => h (a, v) (by simp) hk.symm
      rw [show aupdate ((a, v) :: t) k f = (a, v) :: aupdate t k f from
        if_neg ha, ih fun p hp => h p (List.mem_cons_of_mem _ hp)]

/-- The exact state produced by a successful `Packet::new`: one fresh record
carrying the caller pointer, the byte length, the capacity in `userData`,
the combined wire flags and the installed callback; the caller gives up
ownership of the buffer; nothing else changes. -/
theorem new_ok_eq (s : MState) (b : Nat) (buf : Buffer) (mode : PacketMode)
    (hfresh : ∀ p ∈ s.records, p.1 < s.nextH) :
    Packet.new s b buf mode true = .ok (⟨s.nextH⟩,
      { s with
          records := (s.nextH,
            ⟨b, buf.bytes.length, buf.capacity,
              mode.to_sys_flags ||| FLAG_NO_ALLOCATE, true⟩) :: s.records,
          callerOwned := lremove s.callerOwned b,
          nextH := s.nextH + 1 }) := by
  have hne : ∀ p ∈ s.records, p.1 ≠ s.nextH :=
    fun p hp => Nat.ne_of_lt (hfresh p hp)
  simp [Packet.new, enet_packet_create, Packet.from_sys_packet, aupdate,
    aupdate_eq_of_forall_ne hne]

/-- A failed `Packet::new` is exactly the null-handle report. -/
theorem new_err_eq (s : MState) (b : Nat) (buf : Buffer) (mode : PacketMode) :
    Packet.new s b buf mode false = .error ⟨0⟩ := rfl

/-! ## Step characterizations -/

theorem step_newPacket_ok_eq (s : MState) (b0 : Nat) (buf : Buffer)
    (mode : PacketMode) (hb : alookup s.heap b0 = some buf)
    (hin : b0 ∈ s.callerOwned)
    (hne : ∀ q ∈ s.records, q.1 ≠ s.nextH) :
    step s (.newPacket b0 mode true) = some
      { s with
          records := (s.nextH,
            ⟨b0, buf.bytes.length, buf.capacity,
              mode.to_sys_flags ||| FLAG_NO_ALLOCATE, true⟩) :: s.records,
          callerOwned := lremove s.callerOwned b0,
          packets := (s.nextP, ⟨s.nextH⟩) :: s.packets,
          nextH := s.nextH + 1,
          nextP := s.nextP + 1 } := by
  simp [step, hb, hin, Packet.new, enet_packet_create, Packet.from_sys_packet,
    aupdate_cons_self, aupdate_eq_of_forall_ne hne]

theorem step_newPacket_err_eq (s : MState) (b0 : Nat) (buf : Buffer)
    (mode : PacketMode) (hb : alookup s.heap b0 = some buf)
    (hin : b0 ∈ s.callerOwned) :
    step s (.newPacket b0 mode false) = some
      { s with
          heap := aerase s.heap b0,
          callerOwned := lremove s.callerOwned b0,
          freeLog := s.freeLog ++ [b0],
          dropLog := s.dropLog ++ [⟨b0, buf.bytes.length, buf.capacity⟩] } := by
  simp [step, hb, hin, Packet.new, enet_packet_create, vecDrop, heapFree]

theorem step_dropVec_eq (s : MState) (b0 : Nat) (buf : Buffer)
    (hb : alookup s.heap b0 = some buf) (hin : b0 ∈ s.callerOwned) :
    step s (.dropVec b0) = some
      { s with
          heap := aerase s.heap b0,
          callerOwned := lremove s.callerOwned b0,
          freeLog := s.freeLog ++ [b0],
          dropLog := s.dropLog ++ [⟨b0, buf.bytes.length, buf.capacity⟩] } := by
  simp [step, hb, hin, vecDrop, heapFree]

theorem destroy_eq_cb (s : MState) (h0 : Nat) (r : ENetPacket)
    (hr : alookup s.records h0 = some r) (hcb : r.freeCallback = true)
    (hlive : (alookup s.heap r.data).isSome = true) :
    enet_packet_destroy s h0 = some
      { s with
          records := aerase s.records h0,
          heap := aerase s.heap r.data,
          freeLog := s.freeLog ++ [r.data],
          dropLog := s.dropLog ++ [⟨r.data, r.dataLength, r.userData⟩] } := by
  simp [enet_packet_destroy, hr, hcb, vecDrop, heapFree, hlive,
    packet_free_callback]

theorem destroy_eq_nocb (s : MState) (h0 : Nat) (r : ENetPacket)
    (hr : alookup s.records h0 = some r) (hcb : r.freeCallback = false) :
    enet_packet_destroy s h0 = some { s with records := aerase s.records h0 } := by
  simp [enet_packet_destroy, hr, hcb]

theorem step_dropPacket_eq (s : MState) (pid : Nat) (p : Packet)
    (hp : alookup s.packets pid = some p) :
    step s (.dropPacket pid) =
      enet_packet_destroy { s with packets := aerase s.packets pid }
        p.inner := by
  simp [step, hp]

theorem step_intoRaw_eq (s : MState) (pid : Nat) (p : Packet)
    (hp : alookup s.packets pid = some p) :
    step s (.intoRaw pid) = some { s with packets := aerase s.packets pid } := by
  simp [step, hp]

theorem step_setLen_eq (s : MState) (h0 n : Nat) (r : ENetPacket)
    (hr : alookup s.records h0 = some r) :
    step s (.setDataLength h0 n) = some
      { s with records :=
          aupdate s.records h0 fun q => { q with dataLength := n } } := by
  simp [step, hr]

/-! ## Invariant preservation -/

theorem wf_shape_free (s : MState) (b0 : Nat) (v : RawVec) (hwf : WF s)
    (hown : b0 ∈ s.callerOwned) :
    WF { s with
        heap := aerase s.heap b0,
        callerOwned := lremove s.callerOwned b0,
        freeLog := s.freeLog ++ [b0],
        dropLog := s.dropLog ++ [v] } := by
  obtain ⟨w1, w2, w3, w4, w5, w6, w7, w8, w9⟩ := hwf
  refine ⟨?_, ?_, ?_, w4, ?_, w6, w7, w8, w9⟩
  · intro x hx
    rcases List.mem_append.mp hx with hx | hx
    · by_cases hxb : x = b0
      · subst hxb
        exact alookup_aerase_self _ _
      · rw [alookup_aerase_ne _ _ _ hxb]
        exact w1 x hx
    · simp only [List.mem_singleton] at hx
      subst hx
      exact alookup_aerase_self _ _
  · intro p hp hcb
    have hd : p.2.data ≠ b0 := fun he => (w3 p hp hcb) (he ▸ hown)
    rw [alookup_aerase_ne _ _ _ hd]
    exact w2 p hp hcb
  · intro p hp hcb hmem
    exact w3 p hp hcb (mem_lremove.mp hmem).1
  · intro x hx
    obtain ⟨hx1, hx2⟩ := mem_lremove.mp hx
    rw [alookup_aerase_ne _ _ _ hx2]
    exact w5 x hx1

theorem wf_shape_new (s : MState) (b0 dl ud fl : Nat) (hwf : WF s)
    (hown : b0 ∈ s.callerOwned)
    (hlive : (alookup s.heap b0).isSome = true) :
    WF { s with
        records := (s.nextH, ⟨b0, dl, ud, fl, true⟩) :: s.records,
        callerOwned := lremove s.callerOwned b0,
        packets := (s.nextP, ⟨s.nextH⟩) :: s.packets,
        nextH := s.nextH + 1, nextP := s.nextP + 1 } := by
  obtain ⟨w1, w2, w3, w4, w5, w6, w7, w8, w9⟩ := hwf
  refine ⟨w1, ?_, ?_, ?_, ?_, ?_, ?_, ?_, ?_⟩
  · intro p hp hcb
    rcases List.mem_cons.mp hp with rfl | hp
    · exact hlive
    · exact w2 p hp hcb
  · intro p hp hcb hmem
    rcases List.mem_cons.mp hp with rfl | hp
    · exact (mem_lremove.mp hmem).2 rfl
    · exact w3 p hp hcb (mem_lremove.mp hmem).1
  · intro p hp q hq hcbp hcbq hd
    rcases List.mem_cons.mp hp with rfl | hp
    · rcases List.mem_cons.mp hq with rfl | hq
      · rfl
      · exact absurd (show q.2.data ∈ s.callerOwned from hd ▸ hown)
          (w3 q hq hcbq)
    · rcases List.mem_cons.mp hq with rfl | hq
      · exact absurd (show p.2.data ∈ s.callerOwned from hd ▸ hown)
          (w3 p hp hcbp)
      · exact w4 p hp q hq hcbp hcbq hd
  · intro x hx
    exact w5 x (mem_lremove.mp hx).1
  · intro p hp q hq hinner
    rcases List.mem_cons.mp hp with rfl | hp
    · rcases List.mem_cons.mp hq with rfl | hq
      · rfl
      · have := w9 q hq
        simp only at hinner
        omega
    · rcases List.mem_cons.mp hq with rfl | hq
      · have := w9 p hp
        simp only at hinner
        omega
      · exact w6 p hp q hq hinner
  · intro p hp
    rcases List.mem_cons.mp hp with rfl | hp
    · exact Nat.lt_succ_self _
    · exact Nat.lt_succ_of_lt (w7 p hp)
  · intro p hp
    rcases List.mem_cons.mp hp with rfl | hp
    · exact Nat.lt_succ_self _
    · exact Nat.lt_succ_of_lt (w8 p hp)
  · intro p hp
    rcases List.mem_cons.mp hp with rfl | hp
    · exact Nat.lt_succ_self _
    · exact Nat.lt_succ_of_lt (w9 p hp)

theorem wf_shape_destroy_cb (s : MState) (h0 : Nat) (r : ENetPacket)
    (P : List (Nat × Packet)) (v : RawVec) (hwf : WF s)
    (hr : alookup s.records h0 = some r) (hcb : r.freeCallback = true)
    (hP : ∀ p ∈ P, p ∈ s.packets) :
    WF { s with
        packets := P,
        records := aerase s.records h0,
        heap := aerase s.heap r.data,
        freeLog := s.freeLog ++ [r.data],
        dropLog := s.dropLog ++ [v] } := by
  obtain ⟨w1, w2, w3, w4, w5, w6, w7, w8, w9⟩ := hwf
  have hrmem : (h0, r) ∈ s.records := alookup_mem hr
  refine ⟨?_, ?_, ?_, ?_, ?_, ?_, ?_, ?_, ?_⟩
  · intro x hx
    rcases List.mem_append.mp hx with hx | hx
    · by_cases hxb : x = r.data
      · subst hxb
        exact alookup_aerase_self _ _
      · rw [alookup_aerase_ne _ _ _ hxb]
        exact w1 x hx
    · simp only [List.mem_singleton] at hx
      subst hx
      exact alookup_aerase_self _ _
  · intro p hp hcbp
    obtain ⟨hp2, hpne⟩ := mem_aerase.mp hp
    have hd : p.2.data ≠ r.data :=
      fun he => hpne (w4 p hp2 (h0, r) hrmem hcbp hcb he)
    rw [alookup_aerase_ne _ _ _ hd]
    exact w2 p hp2 hcbp
  · intro p hp hcbp
    exact w3 p (mem_aerase.mp hp).1 hcbp
  · intro p hp q hq hcbp hcbq hd
    exact w4 p (mem_aerase.mp hp).1 q (mem_aerase.mp hq).1 hcbp hcbq hd
  · intro x hx
    have hxd : x ≠ r.data := fun he => (w3 (h0, r) hrmem hcb) (he ▸ hx)
    rw [alookup_aerase_ne _ _ _ hxd]
    exact w5 x hx
  · intro p hp q hq hinner
    exact w6 p (hP p hp) q (hP q hq) hinner
  · intro p hp
    exact w7 p (mem_aerase.mp hp).1
  · intro p hp
    exact w8 p (hP p hp)
  · intro p hp
    exact w9 p (hP p hp)

theorem wf_shape_destroy_nocb (s : MState) (h0 : Nat)
    (P : List (Nat × Packet)) (hwf : WF s)
    (hP : ∀ p ∈ P, p ∈ s.packets) :
    WF { s with packets := P, records := aerase s.records h0 } := by
  obtain ⟨w1, w2, w3, w4, w5, w6, w7, w8, w9⟩ := hwf
  refine ⟨w1, ?_, ?_, ?_, w5, ?_, ?_, ?_, ?_⟩
  · intro p hp hcbp
    exact w2 p (mem_aerase.mp hp).1 hcbp
  · intro p hp hcbp
    exact w3 p (mem_aerase.mp hp).1 hcbp
  · intro p hp q hq hcbp hcbq hd
    exact w4 p (mem_aerase.mp hp).1 q (mem_aerase.mp hq).1 hcbp hcbq hd
  · intro p hp q hq hinner
    exact w6 p (hP p hp) q (hP q hq) hinner
  · intro p hp
    exact w7 p (mem_aerase.mp hp).1
  · intro p hp
    exact w8 p (hP p hp)
  · intro p hp
    exact w9 p (hP p hp)

theorem wf_shape_packets (s : MState) (P : List (Nat × Packet)) (hwf : WF s)
    (hP : ∀ p ∈ P, p ∈ s.packets) : WF { s with packets := P } := by
  obtain ⟨w1, w2, w3, w4, w5, w6, w7, w8, w9⟩ := hwf
  refine ⟨w1, w2, w3, w4, w5, ?_, w7, ?_, ?_⟩
  · intro p hp q hq hinner
    exact w6 p (hP p hp) q (hP q hq) hinner
  · intro p hp
    exact w8 p (hP p hp)
  · intro p hp
    exact w9 p (hP p hp)

theorem wf_shape_setlen (s : MState) (h0 n : Nat) (hwf : WF s) :
    WF { s with
        records := aupdate s.records h0 fun q => { q with dataLength := n } } := by
  obtain ⟨w1, w2, w3, w4, w5, w6, w7, w8, w9⟩ := hwf
  have key : ∀ p ∈ aupdate s.records h0 (fun q => { q with dataLength := n }),
      ∃ q ∈ s.records, q.1 = p.1 ∧ q.2.data = p.2.data ∧
        q.2.freeCallback = p.2.freeCallback := by
    intro p hp
    obtain ⟨w, hw, hor⟩ := mem_aupdate hp
    refine ⟨(p.1, w), hw, rfl, ?_, ?_⟩ <;> rcases hor with h2 | h2 <;>
      rw [h2]
  refine ⟨w1, ?_, ?_, ?_, w5, w6, ?_, w8, w9⟩
  · intro p hp hcbp
    obtain ⟨q, hq, hk, hd, hc⟩ := key p hp
    rw [← hd]
    exact w2 q hq (hc.trans hcbp)
  · intro p hp hcbp
    obtain ⟨q, hq, hk, hd, hc⟩ := key p hp
    rw [← hd]
    exact w3 q hq (hc.trans hcbp)
  · intro p hp q hq hcbp hcbq hd
    obtain ⟨p2, hp2, hkp, hdp, hcp⟩ := key p hp
    obtain ⟨q2, hq2, hkq, hdq, hcq⟩ := key q hq
    rw [← hkp, ← hkq]
    exact w4 p2 hp2 q2 hq2 (hcp.trans hcbp) (hcq.trans hcbq)
      (by rw [hdp, hdq, hd])
  · intro p hp
    obtain ⟨q, hq, hk, hd, hc⟩ := key p hp
    rw [← hk]
    exact w7 q hq

/-- Every successful step preserves well-formedness. -/
theorem wf_step {s s2 : MState} {op : Op} (hwf : WF s)
    (hstep : step s op = some s2) : WF s2 := by
  obtain ⟨w1, w2, w3, w4, w5, w6, w7, w8, w9⟩ := hwf
  have hwf2 : WF s := ⟨w1, w2, w3, w4, w5, w6, w7, w8, w9⟩
  cases op with
  | newPacket b0 mode ok =>
      cases hh : alookup s.heap b0 with
      | none => simp [step, hh] at hstep
      | some buf =>
          by_cases hin : b0 ∈ s.callerOwned
          · cases ok with
            | false =>
                rw [step_newPacket_err_eq s b0 buf mode hh hin] at hstep
                obtain rfl := Option.some.inj hstep
                exact wf_shape_free s b0 _ hwf2 hin
            | true =>
                have hne : ∀ q ∈ s.records, q.1 ≠ s.nextH :=
                  fun q hq => Nat.ne_of_lt (w7 q hq)
                rw [step_newPacket_ok_eq s b0 buf mode hh hin hne] at hstep
                obtain rfl := Option.some.inj hstep
                exact wf_shape_new s b0 _ _ _ hwf2 hin (by rw [hh]; rfl)
          · simp [step, hh, hin] at hstep
  | dropPacket pid =>
      cases hp : alookup s.packets pid with
      | none => simp [step, hp] at hstep
      | some p =>
          rw [step_dropPacket_eq s pid p hp] at hstep
          cases hr : alookup s.records p.inner with
          | none => simp [enet_packet_destroy, hr] at hstep
          | some r =>
              cases hcb : r.freeCallback with
              | false =>
                  rw [destroy_eq_nocb
                    { s with packets := aerase s.packets pid }
                    p.inner r hr hcb] at hstep
                  obtain rfl := Option.some.inj hstep
                  exact wf_shape_destroy_nocb s p.inner _ hwf2
                    fun q hq => (mem_aerase.mp hq).1
              | true =>
                  have hlive : (alookup s.heap r.data).isSome = true :=
                    w2 (p.inner, r) (alookup_mem hr) hcb
                  rw [destroy_eq_cb
                    { s with packets := aerase s.packets pid }
                    p.inner r hr hcb hlive] at hstep
                  obtain rfl := Option.some.inj hstep
                  exact wf_shape_destroy_cb s p.inner r _ _ hwf2 hr hcb
                    fun q hq => (mem_aerase.mp hq).1
  | intoRaw pid =>
      cases hp : alookup s.packets pid with
      | none => simp [step, hp] at hstep
      | some p =>
          rw [step_intoRaw_eq s pid p hp] at hstep
          obtain rfl := Option.some.inj hstep
          exact wf_shape_packets s _ hwf2 fun q hq => (mem_aerase.mp hq).1
  | destroyRaw h0 =>
      simp only [step] at hstep
      cases hr : alookup s.records h0 with
      | none => simp [enet_packet_destroy, hr] at hstep
      | some r =>
          cases hcb : r.freeCallback with
          | false =>
              rw [destroy_eq_nocb _ _ r hr hcb] at hstep
              obtain rfl := Option.some.inj hstep
              exact wf_shape_destroy_nocb s h0 _ hwf2 fun q hq => hq
          | true =>
              have hlive : (alookup s.heap r.data).isSome = true :=
                w2 (h0, r) (alookup_mem hr) hcb
              rw [destroy_eq_cb _ _ r hr hcb hlive] at hstep
              obtain rfl := Option.some.inj hstep
              exact wf_shape_destroy_cb s h0 r _ _ hwf2 hr hcb
                fun q hq => hq
  | dropVec b0 =>
      cases hh : alookup s.heap b0 with
      | none => simp [step, hh] at hstep
      | some buf =>
          by_cases hin : b0 ∈ s.callerOwned
          · rw [step_dropVec_eq s b0 buf hh hin] at hstep
            obtain rfl := Option.some.inj hstep
            exact wf_shape_free s b0 _ hwf2 hin
          · simp [step, hh, hin] at hstep
  | setDataLength h0 n =>
      cases hr : alookup s.records h0 with
      | none => simp [step, hr] at hstep
      | some r =>
          rw [step_setLen_eq s h0 n r hr] at hstep
          obtain rfl := Option.some.inj hstep
          exact wf_shape_setlen s h0 n hwf2

/-! ## Status preservation -/

theorem alookup_cons_ne {α : Type} (t : List (Nat × α)) (k k2 : Nat) (v : α)
    (hne : k2 ≠ k) : alookup ((k, v) :: t) k2 = alookup t k2 := if_neg hne

theorem count_append_of_ne (l : List Nat) {x b : Nat} (h : b ≠ x) :
    (l ++ [x]).count b = l.count b := by
  rw [count_append_one]
  simp [h]

theorem mem_of_count_one {l : List Nat} {b : Nat} (h : l.count b = 1) :
    b ∈ l :=
  List.count_pos_iff.mp (by omega)

/-- In phases one and two the tracked buffer is not caller-owned. -/
theorem status_data_unowned {s : MState} {b h : Nat} {r : ENetPacket}
    (hwf : WF s) (hr : alookup s.records h = some r) (hrd : r.data = b)
    (hrc : r.freeCallback = true) : b ∉ s.callerOwned := by
  obtain ⟨w1, w2, w3, w4, w5, w6, w7, w8, w9⟩ := hwf
  have := w3 (h, r) (alookup_mem hr) hrc
  rwa [hrd] at this

/-- In phase three the tracked buffer is no longer live. -/
theorem status_data_dead {s : MState} {b : Nat} (hwf : WF s)
    (hcnt : s.freeLog.count b = 1) : alookup s.heap b = none := by
  obtain ⟨w1, w2, w3, w4, w5, w6, w7, w8, w9⟩ := hwf
  exact w1 b (mem_of_count_one hcnt)

theorem status_step_intoRaw {s s2 : MState} {b h pid k pid0 : Nat}
    (hwf : WF s) (hst : Status b h pid k s)
    (hstep : step s (.intoRaw pid0) = some s2) :
    Status b h pid (k + relOp pid h (.intoRaw pid0)) s2 := by
  obtain ⟨w1, w2, w3, w4, w5, w6, w7, w8, w9⟩ := hwf
  obtain ⟨hlt, plt, hphase⟩ := hst
  cases hp : alookup s.packets pid0 with
  | none => simp [step, hp] at hstep
  | some p =>
      rw [step_intoRaw_eq s pid0 p hp] at hstep
      obtain rfl := Option.some.inj hstep
      refine ⟨hlt, plt, ?_⟩
      simp only [relOp]
      by_cases hpe : pid0 = pid
      · subst hpe
        rcases hphase with ⟨hk, hpk, hrec, hcnt⟩ |
          ⟨hk, hpk, hnw, hrec, hcnt⟩ | ⟨hk, hrec, hpk, hcnt⟩
        · -- phase one moves to phase two
          refine Or.inr (Or.inl ⟨hk, alookup_aerase_self _ _, ?_, hrec, hcnt⟩)
          intro q hq hqi
          obtain ⟨hq1, hq2⟩ := mem_aerase.mp hq
          have hpe2 : p = ⟨h⟩ := by
            rw [hp] at hpk
            exact Option.some.inj hpk
          subst hpe2
          exact hq2 (w6 q hq1 (pid0, ⟨h⟩) (alookup_mem hp) hqi)
        · rw [hpk] at hp
          cases hp
        · -- phase three is stable
          refine Or.inr (Or.inr ⟨hk, hrec, Or.inl (alookup_aerase_self _ _),
            hcnt⟩)
      · rcases hphase with ⟨hk, hpk, hrec, hcnt⟩ |
          ⟨hk, hpk, hnw, hrec, hcnt⟩ | ⟨hk, hrec, hpk, hcnt⟩
        · refine Or.inl ⟨hk, ?_, hrec, hcnt⟩
          rw [alookup_aerase_ne _ _ _ fun he => hpe he.symm]
          exact hpk
        · refine Or.inr (Or.inl ⟨hk, ?_, ?_, hrec, hcnt⟩)
          · rw [alookup_aerase_ne _ _ _ fun he => hpe he.symm]
            exact hpk
          · intro q hq
            exact hnw q (mem_aerase.mp hq).1
        · refine Or.inr (Or.inr ⟨hk, hrec, ?_, hcnt⟩)
          rw [alookup_aerase_ne _ _ _ fun he => hpe he.symm]
          exact hpk

theorem status_step_setLen {s s2 : MState} {b h pid k h0 n : Nat}
    (hst : Status b h pid k s)
    (hstep : step s (.setDataLength h0 n) = some s2) :
    Status b h pid (k + relOp pid h (.setDataLength h0 n)) s2 := by
  obtain ⟨hlt, plt, hphase⟩ := hst
  cases hr : alookup s.records h0 with
  | none => simp [step, hr] at hstep
  | some r0 =>
      rw [step_setLen_eq s h0 n r0 hr] at hstep
      obtain rfl := Option.some.inj hstep
      refine ⟨hlt, plt, ?_⟩
      simp only [relOp]
      have hlook : ∀ r : ENetPacket, alookup s.records h = some r →
          r.data = b → r.freeCallback = true →
          ∃ r2, alookup (aupdate s.records h0 fun q =>
            { q with dataLength := n }) h = some r2 ∧ r2.data = b ∧
            r2.freeCallback = true := by
        intro r hrh hrd hrc
        by_cases hhe : h = h0
        · subst hhe
          refine ⟨{ r with dataLength := n }, ?_, hrd, hrc⟩
          rw [alookup_aupdate_self, hrh]
          rfl
        · exact ⟨r, by rw [alookup_aupdate_ne _ _ _ _ hhe, hrh], hrd, hrc⟩
      have hnone : alookup s.records h = none →
          alookup (aupdate s.records h0 fun q =>
            { q with dataLength := n }) h = none := by
        intro hrh
        by_cases hhe : h = h0
        · subst hhe
          rw [alookup_aupdate_self, hrh]
          rfl
        · rw [alookup_aupdate_ne _ _ _ _ hhe]
          exact hrh
      rcases hphase with ⟨hk, hpk, ⟨r, hrh, hrd, hrc⟩, hcnt⟩ |
        ⟨hk, hpk, hnw, ⟨r, hrh, hrd, hrc⟩, hcnt⟩ | ⟨hk, hrec, hpk, hcnt⟩
      · exact Or.inl ⟨hk, hpk, hlook r hrh hrd hrc, hcnt⟩
      · exact Or.inr (Or.inl ⟨hk, hpk, hnw, hlook r hrh hrd hrc, hcnt⟩)
      · exact Or.inr (Or.inr ⟨hk, hnone hrec, hpk, hcnt⟩)

/-- Freeing a caller-owned buffer leaves the tracked packet status intact:
in the live phases the tracked buffer is record-owned, hence distinct from
any caller-owned buffer; in the freed phase it is dead while the freed one
is live. -/
theorem status_shape_free {s : MState} {b h pid k b0 : Nat} {v : RawVec}
    (hwf : WF s) (hst : Status b h pid k s)
    (hown : b0 ∈ s.callerOwned)
    (hlive : (alookup s.heap b0).isSome = true) :
    Status b h pid k { s with
        heap := aerase s.heap b0,
        callerOwned := lremove s.callerOwned b0,
        freeLog := s.freeLog ++ [b0],
        dropLog := s.dropLog ++ [v] } := by
  obtain ⟨hlt, plt, hphase⟩ := hst
  refine ⟨hlt, plt, ?_⟩
  rcases hphase with ⟨hk, hpk, ⟨r, hrh, hrd, hrc⟩, hcnt⟩ |
    ⟨hk, hpk, hnw, ⟨r, hrh, hrd, hrc⟩, hcnt⟩ | ⟨hk, hrec, hpk, hcnt⟩
  · have hbb : b ≠ b0 :=
      fun he => status_data_unowned hwf hrh hrd hrc (he ▸ hown)
    exact Or.inl ⟨hk, hpk, ⟨r, hrh, hrd, hrc⟩,
      by rw [count_append_of_ne _ hbb]; exact hcnt⟩
  · have hbb : b ≠ b0 :=
      fun he => status_data_unowned hwf hrh hrd hrc (he ▸ hown)
    exact Or.inr (Or.inl ⟨hk, hpk, hnw, ⟨r, hrh, hrd, hrc⟩,
      by rw [count_append_of_ne _ hbb]; exact hcnt⟩)
  · have hbb : b ≠ b0 := by
      intro he
      rw [← he, status_data_dead hwf hcnt] at hlive
      simp at hlive
    exact Or.inr (Or.inr ⟨hk, hrec, hpk,
      by rw [count_append_of_ne _ hbb]; exact hcnt⟩)

theorem status_step_newPacket {s s2 : MState} {b h pid k b0 : Nat}
    {mode : PacketMode} {ok : Bool}
    (hwf : WF s) (hst : Status b h pid k s)
    (hstep : step s (.newPacket b0 mode ok) = some s2) :
    Status b h pid (k + relOp pid h (.newPacket b0 mode ok)) s2 := by
  obtain ⟨w1, w2, w3, w4, w5, w6, w7, w8, w9⟩ := hwf
  have hwf2 : WF s := ⟨w1, w2, w3, w4, w5, w6, w7, w8, w9⟩
  cases hh : alookup s.heap b0 with
  | none => simp [step, hh] at hstep
  | some buf =>
      by_cases hin : b0 ∈ s.callerOwned
      · cases ok with
        | false =>
            rw [step_newPacket_err_eq s b0 buf mode hh hin] at hstep
            obtain rfl := Option.some.inj hstep
            exact status_shape_free hwf2 hst hin (by rw [hh]; rfl)
        | true =>
            have hne : ∀ q ∈ s.records, q.1 ≠ s.nextH :=
              fun q hq => Nat.ne_of_lt (w7 q hq)
            rw [step_newPacket_ok_eq s b0 buf mode hh hin hne] at hstep
            obtain rfl := Option.some.inj hstep
            obtain ⟨hlt, plt, hphase⟩ := hst
            refine ⟨Nat.lt_succ_of_lt hlt, Nat.lt_succ_of_lt plt, ?_⟩
            have hrecs : ∀ x : Option ENetPacket,
                alookup s.records h = x →
                alookup ((s.nextH,
                  (⟨b0, buf.bytes.length, buf.capacity,
                    mode.to_sys_flags ||| FLAG_NO_ALLOCATE,
                    true⟩ : ENetPacket)) :: s.records) h = x := by
              intro x hx
              rw [alookup_cons_ne _ _ _ _ (Nat.ne_of_lt hlt)]
              exact hx
            have hpks : ∀ x : Option Packet,
                alookup s.packets pid = x →
                alookup ((s.nextP, (⟨s.nextH⟩ : Packet)) :: s.packets)
                  pid = x := by
              intro x hx
              rw [alookup_cons_ne _ _ _ _ (Nat.ne_of_lt plt)]
              exact hx
            rcases hphase with ⟨hk, hpk, ⟨r, hrh, hrd, hrc⟩, hcnt⟩ |
              ⟨hk, hpk, hnw, ⟨r, hrh, hrd, hrc⟩, hcnt⟩ |
              ⟨hk, hrec, hpk, hcnt⟩
            · exact Or.inl ⟨hk, hpks _ hpk,
                ⟨r, hrecs _ hrh, hrd, hrc⟩, hcnt⟩
            · refine Or.inr (Or.inl ⟨hk, hpks _ hpk, ?_,
                ⟨r, hrecs _ hrh, hrd, hrc⟩, hcnt⟩)
              intro q hq
              rcases List.mem_cons.mp hq with rfl | hq
              · exact Nat.ne_of_gt hlt
              · exact hnw q hq
            · refine Or.inr (Or.inr ⟨hk, hrecs _ hrec, ?_, hcnt⟩)
              rcases hpk with hpk | hpk
              · exact Or.inl (hpks _ hpk)
              · exact Or.inr (hpks _ hpk)
      · simp [step, hh, hin] at hstep

theorem status_step_dropVec {s s2 : MState} {b h pid k b0 : Nat}
    (hwf : WF s) (hst : Status b h pid k s)
    (hstep : step s (.dropVec b0) = some s2) :
    Status b h pid (k + relOp pid h (.dropVec b0)) s2 := by
  cases hh : alookup s.heap b0 with
  | none => simp [step, hh] at hstep
  | some buf =>
      by_cases hin : b0 ∈ s.callerOwned
      · rw [step_dropVec_eq s b0 buf hh hin] at hstep
        obtain rfl := Option.some.inj hstep
        exact status_shape_free hwf hst hin (by rw [hh]; rfl)
      · simp [step, hh, hin] at hstep

theorem status_step_destroyRaw {s s2 : MState} {b h pid k h0 : Nat}
    (hwf : WF s) (hst : Status b h pid k s)
    (hstep : step s (.destroyRaw h0) = some s2) :
    Status b h pid (k + relOp pid h (.destroyRaw h0)) s2 := by
  obtain ⟨w1, w2, w3, w4, w5, w6, w7, w8, w9⟩ := hwf
  have hwf2 : WF s := ⟨w1, w2, w3, w4, w5, w6, w7, w8, w9⟩
  obtain ⟨hlt, plt, hphase⟩ := hst
  simp only [step] at hstep
  cases hr : alookup s.records h0 with
  | none => simp [enet_packet_destroy, hr] at hstep
  | some r0 =>
      simp only [relOp]
      by_cases hh0 : h0 = h
      · rw [if_pos hh0]
        subst hh0
        rcases hphase with ⟨hk, hpk, ⟨r, hrh, hrd, hrc⟩, hcnt⟩ |
          ⟨hk, hpk, hnw, ⟨r, hrh, hrd, hrc⟩, hcnt⟩ | ⟨hk, hrec, hpk, hcnt⟩
        · -- phase one, manual destroy of the raw handle: moves to phase three
          rw [hrh] at hr
          obtain rfl := Option.some.inj hr
          have hlive : (alookup s.heap r.data).isSome = true :=
            w2 (h0, r) (alookup_mem hrh) hrc
          rw [destroy_eq_cb s h0 r hrh hrc hlive] at hstep
          obtain rfl := Option.some.inj hstep
          refine ⟨hlt, plt, Or.inr (Or.inr ⟨by omega,
            alookup_aerase_self _ _, Or.inr hpk, ?_⟩)⟩
          rw [hrd, count_append_one, hcnt]
          simp
        · -- phase two: the caller destroys the extracted handle
          rw [hrh] at hr
          obtain rfl := Option.some.inj hr
          have hlive : (alookup s.heap r.data).isSome = true :=
            w2 (h0, r) (alookup_mem hrh) hrc
          rw [destroy_eq_cb s h0 r hrh hrc hlive] at hstep
          obtain rfl := Option.some.inj hstep
          refine ⟨hlt, plt, Or.inr (Or.inr ⟨by omega,
            alookup_aerase_self _ _, Or.inl hpk, ?_⟩)⟩
          rw [hrd, count_append_one, hcnt]
          simp
        · -- phase three: the record is already gone, the step cannot happen
          rw [hrec] at hr
          cases hr
      · rw [if_neg hh0, Nat.add_zero]
        have hhne : h ≠ h0 := fun he => hh0 he.symm
        cases hcb : r0.freeCallback with
        | false =>
            rw [destroy_eq_nocb s h0 r0 hr hcb] at hstep
            obtain rfl := Option.some.inj hstep
            refine ⟨hlt, plt, ?_⟩
            rcases hphase with ⟨hk, hpk, ⟨r, hrh, hrd, hrc⟩, hcnt⟩ |
              ⟨hk, hpk, hnw, ⟨r, hrh, hrd, hrc⟩, hcnt⟩ |
              ⟨hk, hrec, hpk, hcnt⟩
            · have hrr : alookup (aerase s.records h0) h = some r := by
                rw [alookup_aerase_ne _ _ _ hhne]
                exact hrh
              exact Or.inl ⟨hk, hpk, ⟨r, hrr, hrd, hrc⟩, hcnt⟩
            · have hrr : alookup (aerase s.records h0) h = some r := by
                rw [alookup_aerase_ne _ _ _ hhne]
                exact hrh
              exact Or.inr (Or.inl ⟨hk, hpk, hnw, ⟨r, hrr, hrd, hrc⟩, hcnt⟩)
            · have hrr : alookup (aerase s.records h0) h = none := by
                rw [alookup_aerase_ne _ _ _ hhne]
                exact hrec
              exact Or.inr (Or.inr ⟨hk, hrr, hpk, hcnt⟩)
        | true =>
            have hlive : (alookup s.heap r0.data).isSome = true :=
              w2 (h0, r0) (alookup_mem hr) hcb
            rw [destroy_eq_cb s h0 r0 hr hcb hlive] at hstep
            obtain rfl := Option.some.inj hstep
            refine ⟨hlt, plt, ?_⟩
            rcases hphase with ⟨hk, hpk, ⟨r, hrh, hrd, hrc⟩, hcnt⟩ |
              ⟨hk, hpk, hnw, ⟨r, hrh, hrd, hrc⟩, hcnt⟩ |
              ⟨hk, hrec, hpk, hcnt⟩
            · have hbb : b ≠ r0.data := by
                intro he
                exact hh0 (w4 (h0, r0) (alookup_mem hr) (h, r)
                  (alookup_mem hrh) hcb hrc (by rw [← he, hrd]))
              have hrr : alookup (aerase s.records h0) h = some r := by
                rw [alookup_aerase_ne _ _ _ hhne]
                exact hrh
              have hcnt2 : List.count b (s.freeLog ++ [r0.data]) = 0 := by
                rw [count_append_of_ne _ hbb]
                exact hcnt
              exact Or.inl ⟨hk, hpk, ⟨r, hrr, hrd, hrc⟩, hcnt2⟩
            · have hbb : b ≠ r0.data := by
                intro he
                exact hh0 (w4 (h0, r0) (alookup_mem hr) (h, r)
                  (alookup_mem hrh) hcb hrc (by rw [← he, hrd]))
              have hrr : alookup (aerase s.records h0) h = some r := by
                rw [alookup_aerase_ne _ _ _ hhne]
                exact hrh
              have hcnt2 : List.count b (s.freeLog ++ [r0.data]) = 0 := by
                rw [count_append_of_ne _ hbb]
                exact hcnt
              exact Or.inr (Or.inl ⟨hk, hpk, hnw, ⟨r, hrr, hrd, hrc⟩, hcnt2⟩)
            · have hbb : b ≠ r0.data := by
                intro he
                rw [← he, status_data_dead hwf2 hcnt] at hlive
                simp at hlive
              have hrr : alookup (aerase s.records h0) h = none := by
                rw [alookup_aerase_ne _ _ _ hhne]
                exact hrec
              have hcnt2 : List.count b (s.freeLog ++ [r0.data]) = 1 := by
                rw [count_append_of_ne _ hbb]
                exact hcnt
              exact Or.inr (Or.inr ⟨hk, hrr, hpk, hcnt2⟩)


theorem status_step_dropPacket {s s2 : MState} {b h pid k pid0 : Nat}
    (hwf : WF s) (hst : Status b h pid k s)
    (hstep : step s (.dropPacket pid0) = some s2) :
    Status b h pid (k + relOp pid h (.dropPacket pid0)) s2 := by
  obtain ⟨w1, w2, w3, w4, w5, w6, w7, w8, w9⟩ := hwf
  have hwf2 : WF s := ⟨w1, w2, w3, w4, w5, w6, w7, w8, w9⟩
  obtain ⟨hlt, plt, hphase⟩ := hst
  cases hp : alookup s.packets pid0 with
  | none => simp [step, hp] at hstep
  | some p =>
      rw [step_dropPacket_eq s pid0 p hp] at hstep
      cases hr : alookup s.records p.inner with
      | none => simp [enet_packet_destroy, hr] at hstep
      | some r0 =>
          simp only [relOp]
          by_cases hpe : pid0 = pid
          · rw [if_pos hpe]
            subst hpe
            rcases hphase with ⟨hk, hpk, ⟨r, hrh, hrd, hrc⟩, hcnt⟩ |
              ⟨hk, hpk, hnw, ⟨r, hrh, hrd, hrc⟩, hcnt⟩ |
              ⟨hk, hrec, hpk, hcnt⟩
            · -- phase one moves to phase three when the value is dropped
              have hpp : p = ⟨h⟩ := by
                rw [hp] at hpk
                exact Option.some.inj hpk
              have hpi : p.inner = h := by rw [hpp]
              rw [hpi] at hr hstep
              rw [hrh] at hr
              obtain rfl := Option.some.inj hr
              have hlive : (alookup s.heap r.data).isSome = true :=
                w2 (h, r) (alookup_mem hrh) hrc
              rw [destroy_eq_cb { s with packets := aerase s.packets pid0 }
                h r hrh hrc hlive] at hstep
              obtain rfl := Option.some.inj hstep
              refine ⟨hlt, plt, Or.inr (Or.inr ⟨by omega,
                alookup_aerase_self _ _,
                Or.inl (alookup_aerase_self _ _), ?_⟩)⟩
              rw [hrd, count_append_one, hcnt]
              simp
            · -- phase two: the value was already consumed
              rw [hpk] at hp
              cases hp
            · -- phase three: dropping again cannot step
              rcases hpk with hpk | hpk
              · rw [hpk] at hp
                cases hp
              · have hpp : p = ⟨h⟩ := by
                  rw [hp] at hpk
                  exact Option.some.inj hpk
                have hpi : p.inner = h := by rw [hpp]
                rw [hpi, hrec] at hr
                cases hr
          · rw [if_neg hpe, Nat.add_zero]
            have hpne : pid ≠ pid0 := fun he => hpe he.symm
            cases hcb : r0.freeCallback with
            | false =>
                rw [destroy_eq_nocb
                  { s with packets := aerase s.packets pid0 }
                  p.inner r0 hr hcb] at hstep
                obtain rfl := Option.some.inj hstep
                refine ⟨hlt, plt, ?_⟩
                rcases hphase with ⟨hk, hpk, ⟨r, hrh, hrd, hrc⟩, hcnt⟩ |
                  ⟨hk, hpk, hnw, ⟨r, hrh, hrd, hrc⟩, hcnt⟩ |
                  ⟨hk, hrec, hpk, hcnt⟩
                · have hih : p.inner ≠ h := by
                    intro he
                    exact hpe (w6 (pid0, p) (alookup_mem hp) (pid, ⟨h⟩)
                      (alookup_mem hpk) he)
                  have hrr : alookup (aerase s.records p.inner) h = some r := by
                    rw [alookup_aerase_ne _ _ _ fun he => hih he.symm]
                    exact hrh
                  have hpk2 : alookup (aerase s.packets pid0) pid =
                      some ⟨h⟩ := by
                    rw [alookup_aerase_ne _ _ _ hpne]
                    exact hpk
                  exact Or.inl ⟨hk, hpk2, ⟨r, hrr, hrd, hrc⟩, hcnt⟩
                · have hih : p.inner ≠ h := hnw (pid0, p) (alookup_mem hp)
                  have hrr : alookup (aerase s.records p.inner) h = some r := by
                    rw [alookup_aerase_ne _ _ _ fun he => hih he.symm]
                    exact hrh
                  have hpk2 : alookup (aerase s.packets pid0) pid = none := by
                    rw [alookup_aerase_ne _ _ _ hpne]
                    exact hpk
                  have hnw2 : ∀ q ∈ aerase s.packets pid0, q.2.inner ≠ h :=
                    fun q hq => hnw q (mem_aerase.mp hq).1
                  exact Or.inr (Or.inl ⟨hk, hpk2, hnw2,
                    ⟨r, hrr, hrd, hrc⟩, hcnt⟩)
                · have hih : h ≠ p.inner := by
                    intro he
                    rw [← he, hrec] at hr
                    cases hr
                  have hrr : alookup (aerase s.records p.inner) h = none := by
                    rw [alookup_aerase_ne _ _ _ hih]
                    exact hrec
                  have hpk2 : alookup (aerase s.packets pid0) pid = none ∨
                      alookup (aerase s.packets pid0) pid = some ⟨h⟩ := by
                    rcases hpk with hpk | hpk
                    · exact Or.inl (by
                        rw [alookup_aerase_ne _ _ _ hpne]; exact hpk)
                    · exact Or.inr (by
                        rw [alookup_aerase_ne _ _ _ hpne]; exact hpk)
                  exact Or.inr (Or.inr ⟨hk, hrr, hpk2, hcnt⟩)
            | true =>
                have hlive : (alookup s.heap r0.data).isSome = true :=
                  w2 (p.inner, r0) (alookup_mem hr) hcb
                rw [destroy_eq_cb
                  { s with packets := aerase s.packets pid0 }
                  p.inner r0 hr hcb hlive] at hstep
                obtain rfl := Option.some.inj hstep
                refine ⟨hlt, plt, ?_⟩
                rcases hphase with ⟨hk, hpk, ⟨r, hrh, hrd, hrc⟩, hcnt⟩ |
                  ⟨hk, hpk, hnw, ⟨r, hrh, hrd, hrc⟩, hcnt⟩ |
                  ⟨hk, hrec, hpk, hcnt⟩
                · have hih : p.inner ≠ h := by
                    intro he
                    exact hpe (w6 (pid0, p) (alookup_mem hp) (pid, ⟨h⟩)
                      (alookup_mem hpk) he)
                  have hbb : b ≠ r0.data := by
                    intro he
                    exact hih (w4 (p.inner, r0) (alookup_mem hr) (h, r)
                      (alookup_mem hrh) hcb hrc (by rw [← he, hrd]))
                  have hrr : alookup (aerase s.records p.inner) h = some r := by
                    rw [alookup_aerase_ne _ _ _ fun he => hih he.symm]
                    exact hrh
                  have hpk2 : alookup (aerase s.packets pid0) pid =
                      some ⟨h⟩ := by
                    rw [alookup_aerase_ne _ _ _ hpne]
                    exact hpk
                  have hcnt2 : List.count b (s.freeLog ++ [r0.data]) = 0 := by
                    rw [count_append_of_ne _ hbb]
                    exact hcnt
                  exact Or.inl ⟨hk, hpk2, ⟨r, hrr, hrd, hrc⟩, hcnt2⟩
                · have hih : p.inner ≠ h := hnw (pid0, p) (alookup_mem hp)
                  have hbb : b ≠ r0.data := by
                    intro he
                    exact hih (w4 (p.inner, r0) (alookup_mem hr) (h, r)
                      (alookup_mem hrh) hcb hrc (by rw [← he, hrd]))
                  have hrr : alookup (aerase s.records p.inner) h = some r := by
                    rw [alookup_aerase_ne _ _ _ fun he => hih he.symm]
                    exact hrh
                  have hpk2 : alookup (aerase s.packets pid0) pid = none := by
                    rw [alookup_aerase_ne _ _ _ hpne]
                    exact hpk
                  have hnw2 : ∀ q ∈ aerase s.packets pid0, q.2.inner ≠ h :=
                    fun q hq => hnw q (mem_aerase.mp hq).1
                  have hcnt2 : List.count b (s.freeLog ++ [r0.data]) = 0 := by
                    rw [count_append_of_ne _ hbb]
                    exact hcnt
                  exact Or.inr (Or.inl ⟨hk, hpk2, hnw2,
                    ⟨r, hrr, hrd, hrc⟩, hcnt2⟩)
                · have hih : h ≠ p.inner := by
                    intro he
                    rw [← he, hrec] at hr
                    cases hr
                  have hbb : b ≠ r0.data := by
                    intro he
                    rw [← he, status_data_dead hwf2 hcnt] at hlive
                    simp at hlive
                  have hrr : alookup (aerase s.records p.inner) h = none := by
                    rw [alookup_aerase_ne _ _ _ hih]
                    exact hrec
                  have hpk2 : alookup (aerase s.packets pid0) pid = none ∨
                      alookup (aerase s.packets pid0) pid = some ⟨h⟩ := by
                    rcases hpk with hpk | hpk
                    · exact Or.inl (by
                        rw [alookup_aerase_ne _ _ _ hpne]; exact hpk)
                    · exact Or.inr (by
                        rw [alookup_aerase_ne _ _ _ hpne]; exact hpk)
                  have hcnt2 : List.count b (s.freeLog ++ [r0.data]) = 1 := by
                    rw [count_append_of_ne _ hbb]
                    exact hcnt
                  exact Or.inr (Or.inr ⟨hk, hrr, hpk2, hcnt2⟩)

/-- Any successful step preserves the tracked packet status, consuming as
many releases as the step performs on the tracked packet. -/
theorem status_step {s s2 : MState} {op : Op} {b h pid k : Nat}
    (hwf : WF s) (hst : Status b h pid k s) (hstep : step s op = some s2) :
    Status b h pid (k + relOp pid h op) s2 := by
  cases op with
  | newPacket b0 mode ok => exact status_step_newPacket hwf hst hstep
  | dropPacket pid0 => exact status_step_dropPacket hwf hst hstep
  | intoRaw pid0 => exact status_step_intoRaw hwf hst hstep
  | destroyRaw h0 => exact status_step_destroyRaw hwf hst hstep
  | dropVec b0 => exact status_step_dropVec hwf hst hstep
  | setDataLength h0 n => exact status_step_setLen hst hstep

/-- The status after a whole trace: the phase counter has absorbed exactly
the number of releases of the tracked packet in the trace. -/
theorem status_run {ops : List Op} {s s2 : MState} {b h pid k : Nat}
    (hwf : WF s) (hst : Status b h pid k s) (hrun : run s ops = some s2) :
    Status b h pid (k + relCount pid h ops) s2 := by
  induction ops generalizing s k with
  | nil =>
      simp only [run, Option.some.injEq] at hrun
      subst hrun
      simpa [relCount] using hst
  | cons op ops ih =>
      simp only [run] at hrun
      cases hstep : step s op with
      | none =>
          rw [hstep] at hrun
          cases hrun
      | some s1 =>
          rw [hstep] at hrun
          have hres := ih (wf_step hwf hstep) (status_step hwf hst hstep) hrun
          rw [show relCount pid h (op :: ops) =
            relOp pid h op + relCount pid h ops from by simp [relCount]]
          rw [← Nat.add_assoc]
          exact hres

/-! ## Claims about `PacketMode` -/

/-- C3: `to_sys_flags` realises exactly the documented table —
UnreliableSequenced maps to the empty flag set, UnreliableUnsequenced to
UNSEQUENCED, the fragmented variant to UNSEQUENCED combined with
UNRELIABLE_FRAGMENT, ReliableSequenced to RELIABLE — and the four encodings
are pairwise distinct. -/
theorem to_sys_flags_table :
    PacketMode.to_sys_flags .UnreliableSequenced = 0 ∧
    PacketMode.to_sys_flags .UnreliableUnsequenced = FLAG_UNSEQUENCED ∧
    PacketMode.to_sys_flags .UnreliableUnsequencedUnreliablyFragmented =
      (FLAG_UNSEQUENCED ||| FLAG_UNRELIABLE_FRAGMENT) ∧
    PacketMode.to_sys_flags .ReliableSequenced = FLAG_RELIABLE ∧
    ([PacketMode.to_sys_flags .UnreliableSequenced,
      PacketMode.to_sys_flags .UnreliableUnsequenced,
      PacketMode.to_sys_flags .UnreliableUnsequencedUnreliablyFragmented,
      PacketMode.to_sys_flags .ReliableSequenced] : List Nat).Nodup := by
  decide

/-- C8: `is_reliable` holds exactly on ReliableSequenced and `is_sequenced`
exactly on UnreliableSequenced and ReliableSequenced; both are Lean
functions, hence total, pure and deterministic. -/
theorem is_reliable_is_sequenced_spec :
    ∀ m : PacketMode,
      (m.is_reliable = true ↔ m = .ReliableSequenced) ∧
      (m.is_sequenced = true ↔
        (m = .UnreliableSequenced ∨ m = .ReliableSequenced)) := by
  decide

/-- C9: no constructible `PacketMode` value is reliable but unsequenced. -/
theorem reliable_implies_sequenced :
    ∀ m : PacketMode, m.is_reliable = true → m.is_sequenced = true := by
  decide

/-- Witness for C9 at the one reliable variant. -/
theorem reliable_implies_sequenced_witness :
    PacketMode.is_reliable .ReliableSequenced = true ∧
    PacketMode.is_sequenced .ReliableSequenced = true :=
  ⟨by decide, reliable_implies_sequenced .ReliableSequenced (by decide)⟩

/-! ## Claims about `Packet` construction and handle management -/

/-- C2: construction fails exactly when the foreign allocator returns a null
handle, and a failed construction is atomic — no record is touched (so no
callback is registered and no capacity is stashed anywhere), no `Packet`
value appears, and the buffer is freed exactly once, by the normal `Vec`
destructor on the Rust side. -/
theorem new_failure_atomic (s : MState) (b : Nat) (buf : Buffer)
    (mode : PacketMode) (allocOk : Bool)
    (hheap : alookup s.heap b = some buf)
    (hown : b ∈ s.callerOwned)
    (hcnt : s.freeLog.count b = 0) :
    ((∃ e, Packet.new s b buf mode allocOk = .error e) ↔
      enet_packet_create s b buf.bytes.length
        (mode.to_sys_flags ||| FLAG_NO_ALLOCATE) allocOk = none) ∧
    (allocOk = false →
      ∃ s2, step s (.newPacket b mode false) = some s2 ∧
        s2.records = s.records ∧
        s2.packets = s.packets ∧
        s2.freeLog.count b = 1 ∧
        s2.dropLog = s.dropLog ++ [⟨b, buf.bytes.length, buf.capacity⟩]) := by
  constructor
  · cases allocOk
    · simp [Packet.new, enet_packet_create]
    · simp [Packet.new, enet_packet_create]
  · rintro rfl
    refine ⟨{ s with
        heap := aerase s.heap b,
        callerOwned := lremove s.callerOwned b,
        freeLog := s.freeLog ++ [b],
        dropLog := s.dropLog ++ [⟨b, buf.bytes.length, buf.capacity⟩] },
      ?_, rfl, rfl, ?_, rfl⟩
    · simp [step, hheap, hown, Packet.new, enet_packet_create, vecDrop,
        heapFree]
    · simp [count_append_one, hcnt]

/-- C4: whenever `Packet::new` succeeds, reading the packet through `data`
returns exactly the bytes the buffer was constructed from, for any byte
sequence (empty included) and any mode. -/
theorem data_roundtrip (s : MState) (b : Nat) (buf : Buffer)
    (mode : PacketMode) (allocOk : Bool) (p : Packet) (s2 : MState)
    (hheap : alookup s.heap b = some buf)
    (hfresh : ∀ q ∈ s.records, q.1 < s.nextH)
    (hok : Packet.new s b buf mode allocOk = .ok (p, s2)) :
    Packet.data s2 p = some buf.bytes := by
  cases allocOk
  · simp [Packet.new, enet_packet_create] at hok
  · rw [new_ok_eq s b buf mode hfresh] at hok
    simp only [Except.ok.injEq, Prod.mk.injEq] at hok
    obtain ⟨rfl, rfl⟩ := hok
    simp [Packet.data, alookup, hheap]

/-- C6: `into_inner` consumes the `Packet` value and hands back the very
handle it wrapped, leaving every record, the heap and both release logs
untouched (no destroy runs, no callback fires); composed with
`from_sys_packet` it is the identity on handles. -/
theorem into_inner_no_release (s : MState) (pid : Nat) (p : Packet)
    (hp : alookup s.packets pid = some p) :
    (∀ h : Nat, Packet.into_inner (Packet.from_sys_packet h) = h) ∧
    ∃ s2, step s (.intoRaw pid) = some s2 ∧
      Packet.into_inner p = p.inner ∧
      s2.records = s.records ∧
      s2.heap = s.heap ∧
      s2.freeLog = s.freeLog ∧
      s2.dropLog = s.dropLog ∧
      alookup s2.packets pid = none := by
  refine ⟨fun h => rfl, { s with packets := aerase s.packets pid },
    ?_, rfl, rfl, rfl, rfl, rfl, ?_⟩
  · simp [step, hp]
  · exact alookup_aerase_self s.packets pid

theorem testBit_no_allocate (mode : PacketMode) :
    Nat.testBit (mode.to_sys_flags ||| FLAG_NO_ALLOCATE) 2 = true := by
  cases mode <;> decide

theorem frag_flag_bits :
    Nat.testBit
      (PacketMode.UnreliableUnsequencedUnreliablyFragmented.to_sys_flags |||
        FLAG_NO_ALLOCATE) 1 = true ∧
    Nat.testBit
      (PacketMode.UnreliableUnsequencedUnreliablyFragmented.to_sys_flags |||
        FLAG_NO_ALLOCATE) 3 = true ∧
    Nat.testBit
      (PacketMode.UnreliableUnsequencedUnreliablyFragmented.to_sys_flags |||
        FLAG_NO_ALLOCATE) 0 = false := by
  decide

/-- C7: the flag word stored by the foreign allocator is always the wire
encoding of the mode together with the NO_ALLOCATE bit; in particular
NO_ALLOCATE (bit 2) is set for every mode, and for the fragmented
unsequenced mode the UNSEQUENCED (bit 1) and UNRELIABLE_FRAGMENT (bit 3)
bits are set while RELIABLE (bit 0) is not. -/
theorem create_flags_no_allocate (s : MState) (b : Nat) (buf : Buffer)
    (mode : PacketMode) (allocOk : Bool) (p : Packet) (s2 : MState)
    (hfresh : ∀ q ∈ s.records, q.1 < s.nextH)
    (hok : Packet.new s b buf mode allocOk = .ok (p, s2)) :
    ∃ r, alookup s2.records p.inner = some r ∧
      r.flags = (mode.to_sys_flags ||| FLAG_NO_ALLOCATE) ∧
      r.flags.testBit 2 = true ∧
      (mode = .UnreliableUnsequencedUnreliablyFragmented →
        r.flags.testBit 1 = true ∧ r.flags.testBit 3 = true ∧
          r.flags.testBit 0 = false) := by
  cases allocOk
  · simp [Packet.new, enet_packet_create] at hok
  · rw [new_ok_eq s b buf mode hfresh] at hok
    simp only [Except.ok.injEq, Prod.mk.injEq] at hok
    obtain ⟨rfl, rfl⟩ := hok
    refine ⟨⟨b, buf.bytes.length, buf.capacity,
      mode.to_sys_flags ||| FLAG_NO_ALLOCATE, true⟩,
      by simp [alookup], rfl, testBit_no_allocate mode, ?_⟩
    rintro rfl
    exact frag_flag_bits

/-- C5: a successful construction stashes the allocated capacity (not just
the length) in the record `userData` and installs the free callback; firing
that callback at record destruction reconstructs the owned buffer from the
triple (data pointer, length, capacity) and returns the memory exactly
once. -/
theorem capacity_stash_and_single_free (s : MState) (b : Nat) (buf : Buffer)
    (mode : PacketMode) (allocOk : Bool) (p : Packet) (s2 : MState)
    (hheap : alookup s.heap b = some buf)
    (hfresh : ∀ q ∈ s.records, q.1 < s.nextH)
    (hcnt : s.freeLog.count b = 0)
    (hok : Packet.new s b buf mode allocOk = .ok (p, s2)) :
    ∃ r, alookup s2.records p.inner = some r ∧
      r.userData = buf.capacity ∧
      r.dataLength = buf.bytes.length ∧
      r.freeCallback = true ∧
      packet_free_callback r = ⟨b, buf.bytes.length, buf.capacity⟩ ∧
      ∃ s3, enet_packet_destroy s2 p.inner = some s3 ∧
        s3.dropLog = s2.dropLog ++ [⟨b, buf.bytes.length, buf.capacity⟩] ∧
        s3.freeLog.count b = 1 ∧
        alookup s3.heap b = none := by
  cases allocOk
  · simp [Packet.new, enet_packet_create] at hok
  · rw [new_ok_eq s b buf mode hfresh] at hok
    simp only [Except.ok.injEq, Prod.mk.injEq] at hok
    obtain ⟨rfl, rfl⟩ := hok
    have hne : ∀ q ∈ s.records, q.1 ≠ s.nextH :=
      fun q hq => Nat.ne_of_lt (hfresh q hq)
    refine ⟨⟨b, buf.bytes.length, buf.capacity,
      mode.to_sys_flags ||| FLAG_NO_ALLOCATE, true⟩,
      by simp [alookup], rfl, rfl, rfl, rfl, ?_⟩
    refine ⟨{ s with
        heap := aerase s.heap b,
        callerOwned := lremove s.callerOwned b,
        freeLog := s.freeLog ++ [b],
        dropLog := s.dropLog ++ [⟨b, buf.bytes.length, buf.capacity⟩],
        nextH := s.nextH + 1 }, ?_, rfl, ?_, ?_⟩
    · simp [enet_packet_destroy, alookup_cons_self, aerase_cons_self,
        aerase_eq_of_forall_ne hne, packet_free_callback, vecDrop, heapFree,
        hheap]
    · simp [count_append_one, hcnt]
    · exact alookup_aerase_self _ b

/-- C10: the free callback reads `dataLength` at destruction time.  If the
engine rewrites `dataLength` after construction, the buffer dropped by the
callback carries the rewritten length together with the original capacity
from `userData`, not the length captured at construction. -/
theorem free_callback_uses_current_length (s : MState) (b : Nat)
    (buf : Buffer) (mode : PacketMode) (p : Packet) (s2 : MState) (n : Nat)
    (s3 : MState)
    (hheap : alookup s.heap b = some buf)
    (hfresh : ∀ q ∈ s.records, q.1 < s.nextH)
    (hok : Packet.new s b buf mode true = .ok (p, s2))
    (hset : step s2 (.setDataLength p.inner n) = some s3) :
    ∃ r, alookup s3.records p.inner = some r ∧
      r.dataLength = n ∧
      r.userData = buf.capacity ∧
      packet_free_callback r = ⟨b, n, buf.capacity⟩ ∧
      ∃ s4, enet_packet_destroy s3 p.inner = some s4 ∧
        s4.dropLog = s3.dropLog ++ [⟨b, n, buf.capacity⟩] := by
  rw [new_ok_eq s b buf mode hfresh] at hok
  simp only [Except.ok.injEq, Prod.mk.injEq] at hok
  obtain ⟨rfl, rfl⟩ := hok
  have hne : ∀ q ∈ s.records, q.1 ≠ s.nextH :=
    fun q hq => Nat.ne_of_lt (hfresh q hq)
  simp only [step, alookup_cons_self, aupdate_cons_self,
    aupdate_eq_of_forall_ne hne, Option.some.injEq] at hset
  obtain rfl := hset.symm
  refine ⟨⟨b, n, buf.capacity,
    mode.to_sys_flags ||| FLAG_NO_ALLOCATE, true⟩,
    by simp [alookup_cons_self], rfl, rfl, rfl, ?_⟩
  refine ⟨{ s with
      heap := aerase s.heap b,
      callerOwned := lremove s.callerOwned b,
      freeLog := s.freeLog ++ [b],
      dropLog := s.dropLog ++ [⟨b, n, buf.capacity⟩],
      nextH := s.nextH + 1 }, ?_, rfl⟩
  simp [enet_packet_destroy, alookup_cons_self, aerase_cons_self,
    aerase_eq_of_forall_ne hne, packet_free_callback, vecDrop, heapFree,
    hheap]

/-- C1: exactly-once release.  Over any successful trace of operations,
starting from any well-formed state holding a live `Packet` value `pid`
wrapping record `h` whose installed callback owns buffer `b`, if the trace
releases that packet exactly once — by dropping the value, or by one manual
destroy of the raw handle (before or after `into_inner`) — then `b` is
freed exactly once: its free count in the instrumented log goes from zero
to one, never staying zero and never reaching two. -/
theorem packet_released_exactly_once (s : MState) (b h pid : Nat)
    (ops : List Op) (s2 : MState)
    (hwf : WF s)
    (hpk : alookup s.packets pid = some ⟨h⟩)
    (hr : ∃ r, alookup s.records h = some r ∧ r.data = b ∧
      r.freeCallback = true)
    (hcnt : s.freeLog.count b = 0)
    (hrun : run s ops = some s2)
    (hrel : relCount pid h ops = 1) :
    s2.freeLog.count b = 1 := by
  obtain ⟨w1, w2, w3, w4, w5, w6, w7, w8, w9⟩ := hwf
  have hwf2 : WF s := ⟨w1, w2, w3, w4, w5, w6, w7, w8, w9⟩
  obtain ⟨r, hrh, hrd, hrc⟩ := hr
  have hlt : h < s.nextH := w7 (h, r) (alookup_mem hrh)
  have plt : pid < s.nextP := w8 (pid, ⟨h⟩) (alookup_mem hpk)
  have hst : Status b h pid 0 s :=
    ⟨hlt, plt, Or.inl ⟨rfl, hpk, ⟨r, hrh, hrd, hrc⟩, hcnt⟩⟩
  have hfin := status_run hwf2 hst hrun
  rw [hrel] at hfin
  obtain ⟨_, _, hphase⟩ := hfin
  rcases hphase with ⟨hk, _, _, _⟩ | ⟨hk, _, _, _, _⟩ | ⟨_, _, _, hcnt2⟩
  · exact absurd hk (by omega)
  · exact absurd hk (by omega)
  · exact hcnt2

/-- Witness for C1: in the concrete post-construction state `stP`, dropping
the packet value once frees buffer 0 exactly once. -/
theorem packet_released_exactly_once_witness :
    WF stP ∧ relCount 0 0 [Op.dropPacket 0] = 1 ∧
    ∃ s2, run stP [Op.dropPacket 0] = some s2 ∧ s2.freeLog.count 0 = 1 :=
  ⟨by decide, by decide,
    ⟨⟨[(1, bufE)], [1], [], [], [0], [⟨0, 3, 5⟩], 1, 1⟩, by decide,
      packet_released_exactly_once stP 0 0 0 [Op.dropPacket 0]
        ⟨[(1, bufE)], [1], [], [], [0], [⟨0, 3, 5⟩], 1, 1⟩
        (by decide) (by decide) ⟨⟨0, 3, 5, 5, true⟩, by decide, rfl, rfl⟩
        (by decide) (by decide) (by decide)⟩⟩

/-! ## Witnesses at concrete states -/

/-- Witness for C2: with the allocator failing, construction from buffer 0
of `stW` reports the error, touches no record, and the buffer is freed once
by the `Vec` destructor. -/
theorem new_failure_atomic_witness :
    (0 : Nat) ∈ stW.callerOwned ∧
    ∃ s2, step stW (.newPacket 0 .UnreliableSequenced false) = some s2 ∧
      s2.records = stW.records ∧ s2.freeLog.count 0 = 1 := by
  refine ⟨by decide, ?_⟩
  obtain ⟨hiff, himp⟩ := new_failure_atomic stW 0 bufW .UnreliableSequenced
    false (by decide) (by decide) (by decide)
  obtain ⟨s2, hs, hrec, hpkk, hcnt, hdrop⟩ := himp rfl
  exact ⟨s2, hs, hrec, hcnt⟩

/-- Witness for C4 at the empty-buffer scenario: constructing from the
empty buffer 1 of `stW` with mode ReliableSequenced and reading back gives
the empty view, and the mode is reliable. -/
theorem data_roundtrip_witness :
    ∃ p s2, Packet.new stW 1 bufE .ReliableSequenced true = .ok (p, s2) ∧
      Packet.data s2 p = some bufE.bytes ∧
      PacketMode.is_reliable .ReliableSequenced = true := by
  refine ⟨⟨0⟩, ⟨[(0, bufW), (1, bufE)], [0], [(0, ⟨1, 0, 0, 5, true⟩)],
    [], [], [], 1, 0⟩, by rfl, ?_, by decide⟩
  exact data_roundtrip stW 1 bufE .ReliableSequenced true ⟨0⟩
    ⟨[(0, bufW), (1, bufE)], [0], [(0, ⟨1, 0, 0, 5, true⟩)],
      [], [], [], 1, 0⟩ (by decide) (by decide) (by rfl)

/-- Witness for C5: buffer 0 of `stW` has length 3 and capacity 5; after
construction the record stashes 5 in `userData` while `dataLength` is 3,
and the destroy frees the buffer exactly once. -/
theorem capacity_stash_witness :
    ∃ p s2, Packet.new stW 0 bufW .UnreliableSequenced true = .ok (p, s2) ∧
      ∃ r, alookup s2.records p.inner = some r ∧ r.userData = 5 ∧
        r.dataLength = 3 ∧
        ∃ s3, enet_packet_destroy s2 p.inner = some s3 ∧
          s3.freeLog.count 0 = 1 := by
  refine ⟨⟨0⟩, ⟨[(0, bufW), (1, bufE)], [1], [(0, ⟨0, 3, 5, 4, true⟩)],
    [], [], [], 1, 0⟩, by rfl, ?_⟩
  obtain ⟨r, h1, h2, h3, h4, h5, s3, h6, h7, h8, h9⟩ :=
    capacity_stash_and_single_free stW 0 bufW .UnreliableSequenced true ⟨0⟩
      ⟨[(0, bufW), (1, bufE)], [1], [(0, ⟨0, 3, 5, 4, true⟩)],
        [], [], [], 1, 0⟩ (by decide) (by decide) (by decide) (by rfl)
  exact ⟨r, h1, h2, h3, s3, h6, h8⟩

/-- Witness for C6: extracting the raw handle from the live packet of `stP`
leaves records and free log untouched, and the wrap-extract composite is
the identity on the sample handle 7. -/
theorem into_inner_witness :
    Packet.into_inner (Packet.from_sys_packet 7) = 7 ∧
    ∃ s2, step stP (.intoRaw 0) = some s2 ∧ s2.records = stP.records ∧
      s2.freeLog = stP.freeLog := by
  obtain ⟨hid, s2, hstep2, hval, hrec, hheap, hfree, hdrop, hpk⟩ :=
    into_inner_no_release stP 0 ⟨0⟩ (by decide)
  exact ⟨hid 7, s2, hstep2, hrec, hfree⟩

/-- Witness for C7 at the fragmented-mode scenario: the record built from
buffer 0 of `stW` carries UNSEQUENCED, NO_ALLOCATE and UNRELIABLE_FRAGMENT
but not RELIABLE. -/
theorem create_flags_witness :
    ∃ p s2, Packet.new stW 0 bufW
        .UnreliableUnsequencedUnreliablyFragmented true = .ok (p, s2) ∧
      ∃ r, alookup s2.records p.inner = some r ∧
        r.flags.testBit 1 = true ∧ r.flags.testBit 2 = true ∧
        r.flags.testBit 3 = true ∧ r.flags.testBit 0 = false := by
  refine ⟨⟨0⟩, ⟨[(0, bufW), (1, bufE)], [1], [(0, ⟨0, 3, 5, 14, true⟩)],
    [], [], [], 1, 0⟩, by rfl, ?_⟩
  obtain ⟨r, h1, h2, h3, h4⟩ := create_flags_no_allocate stW 0 bufW
    .UnreliableUnsequencedUnreliablyFragmented true ⟨0⟩
    ⟨[(0, bufW), (1, bufE)], [1], [(0, ⟨0, 3, 5, 14, true⟩)],
      [], [], [], 1, 0⟩ (by decide) (by rfl)
  obtain ⟨f1, f3, f0⟩ := h4 rfl
  exact ⟨r, h1, f1, h3, f3, f0⟩

/-- Witness for C10: after the engine rewrites `dataLength` from 3 to 2,
destroying the record drops the buffer with length 2 and capacity 5. -/
theorem free_callback_current_length_witness :
    ∃ p s2 s3, Packet.new stW 0 bufW .UnreliableSequenced true =
        .ok (p, s2) ∧
      step s2 (.setDataLength p.inner 2) = some s3 ∧
      ∃ s4, enet_packet_destroy s3 p.inner = some s4 ∧
        s4.dropLog = s3.dropLog ++ [⟨0, 2, 5⟩] := by
  refine ⟨⟨0⟩, ⟨[(0, bufW), (1, bufE)], [1], [(0, ⟨0, 3, 5, 4, true⟩)],
    [], [], [], 1, 0⟩, ⟨[(0, bufW), (1, bufE)], [1],
    [(0, ⟨0, 2, 5, 4, true⟩)], [], [], [], 1, 0⟩, by rfl, by rfl, ?_⟩
  obtain ⟨r, h1, h2, h3, h4, s4, h5, h6⟩ :=
    free_callback_uses_current_length stW 0 bufW .UnreliableSequenced ⟨0⟩
      ⟨[(0, bufW), (1, bufE)], [1], [(0, ⟨0, 3, 5, 4, true⟩)],
        [], [], [], 1, 0⟩ 2
      ⟨[(0, bufW), (1, bufE)], [1], [(0, ⟨0, 2, 5, 4, true⟩)],
        [], [], [], 1, 0⟩ (by decide) (by decide) (by rfl) (by rfl)
  exact ⟨s4, h5, h6⟩

end EnetRs
